import Mathlib

/-!
Shallow embedding of synapse/lib/socket.py (Socket, Server, Plex) together
with proofs about the embedded operations.

Bytes are modelled as natural numbers, buffers as lists of bytes.  The OS
socket layer is modelled by explicit schedules describing what each
underlying send/recv call transfers, so that every embedded operation is a
total, executable Lean function.
-/

deriving instance DecidableEq for Except

namespace Synapse

/-- The exception raised by the socket layer: SocketClosed (a SocketError). -/
inductive SockErr
  | socketClosed
  deriving DecidableEq, Repr

/-- Event topics fired by Socket objects (sock:conn, sock:shut, ...). -/
inductive EventTopic
  | sockConn
  | sockAccept
  | sockTx
  | sockRx
  | sockMsg
  | sockShut
  | servShut
  deriving DecidableEq, Repr

/-! ### Socket.info — the per-socket metadata store (`_sock_info` dict)

A Python value may itself be None, so the value universe has an explicit
none constructor; the dict maps keys to stored values, and `.get` returns
None for an absent key. -/

/-- A small universe of Python values, including None. -/
inductive PyVal
  | none
  | int (n : Int)
  | str (s : String)
  | boolean (b : Bool)
  deriving DecidableEq, Repr

/-- The `_sock_info` dict: keys to stored values (Lean-level `Option.none`
means the key is absent from the dict). -/
def Store := String → Option PyVal

/-- Python `dict.get(prop)`: the stored value, or None when absent. -/
def dictGet (st : Store) (k : String) : PyVal :=
  (st k).getD .none

/-- Socket.info(prop, valu=None): stores valu when it is not None, then
returns `self._sock_info.get(prop)`. -/
def info (st : Store) (prop : String) (valu : PyVal) : Store × PyVal :=
  let st' : Store :=
    if valu ≠ .none then (fun k => if k = prop then some valu else st k) else st
  (st', dictGet st' prop)

/-- No key of the store holds the Python value None. -/
def NoneNeverStored (st : Store) : Prop :=
  ∀ k, st k ≠ some .none

/-! ### Socket.recvall

`recv(size)` is modelled against a peer byte stream `pending` (the bytes
the peer sent before closing its write side) and an OS delivery schedule:
the i-th recv call delivers `min requested (sched[i]+1)` bytes of the
remaining stream (at least one byte per call while the stream is
nonempty, as the OS guarantees).  An empty result means the peer closed. -/

/-- Socket.recvall(size): loop `recv(size - len(buf))`, raising
SocketClosed when a recv returns empty, until `size` bytes accumulate.
`Option.none` means the schedule ran out (the call would still be blocked
in recv). -/
def recvall (sched : List Nat) (pending : List Nat) (buf : List Nat) (size : Nat) :
    Option (Except SockErr (List Nat)) :=
  if size ≤ buf.length then some (.ok buf)
  else
    match sched with
    | [] => none
    | s :: rest =>
      let x := pending.take (min (size - buf.length) (s + 1))
      if x = [] then some (.error .socketClosed)
      else recvall rest (pending.drop x.length) (buf ++ x) size

/-! ### Socket.sendall and Socket.emit

`send(buf)` is modelled by an OS schedule of send outcomes: `SendStep.ok n`
means the OS accepts `min (n+1) buf.length` bytes of the passed buffer
(placing them on the wire) and send returns that count; `SendStep.err`
means the OS send errors, so `_sock_send` raises SocketClosed. -/

/-- Outcome of one underlying OS send call. -/
inductive SendStep
  | ok (n : Nat)
  | err
  deriving DecidableEq, Repr

/-- Socket.sendall(buf): `sent = 0; while sent < size: sent += send(buf)`.
Note the source passes the WHOLE buffer to every send call.  Returns the
bytes placed on the wire, or the raised error; `Option.none` means the
schedule ran out while the loop is still blocked in send. -/
def sendall (sched : List SendStep) (buf : List Nat) (sent : Nat) (wire : List Nat) :
    Option (Except SockErr (List Nat)) :=
  if buf.length ≤ sent then some (.ok wire)
  else
    match sched with
    | [] => none
    | .err :: _ => some (.error .socketClosed)
    | .ok n :: rest =>
      let k := min (n + 1) buf.length
      sendall rest buf (sent + k) (wire ++ buf.take k)

/-- Socket.emit(obj): `try: sendall(packb(obj)); return True except SocketError:
return False`.  The serialized form of the object is the byte list `enc`. -/
def emit (sched : List SendStep) (enc : List Nat) : Option Bool :=
  match sendall sched enc 0 [] with
  | none => none
  | some (.ok _) => some true
  | some (.error .socketClosed) => some false

/-! ### The stream decoder

Modelled from the spec: the incremental message decoder is the external
msgpack Unpacker (imported by socket.py, not part of this repository).
Per the spec it is an append-only buffer from which every complete
message of a self-describing codec is drained in arrival order, bytes of
an incomplete trailing message staying buffered for the next feed.  The
codec here is a concrete self-describing one (first byte gives the body
length, then that many body bytes); any such codec is substitutable. -/

/-- Decode one message from the front of the buffer: `some (msg, consumed)`
when a complete message is present, `none` when the prefix is incomplete. -/
def decOne (buf : List Nat) : Option (List Nat × Nat) :=
  match buf with
  | [] => none
  | n :: rest => if n ≤ rest.length then some (rest.take n, n + 1) else none

/-- Drain complete messages from the front of the buffer, fuel-bounded. -/
def decodeLoop : Nat → List Nat → List (List Nat) × List Nat
  | 0, buf => ([], buf)
  | fuel + 1, buf =>
    match decOne buf with
    | none => ([], buf)
    | some (m, k) =>
      let p := decodeLoop fuel (buf.drop k)
      (m :: p.1, p.2)

/-- All complete messages in the buffer, with the undecoded leftover.
The buffer length is always enough fuel, as every message consumes at
least one byte. -/
def decodeAll (buf : List Nat) : List (List Nat) × List Nat :=
  decodeLoop buf.length buf

/-- Unpacker.feed(chunk) followed by iterating the unpacker: append the
chunk to the retained buffer and drain every complete message, in order. -/
def feed (st : List Nat) (chunk : List Nat) : List (List Nat) × List Nat :=
  decodeAll (st ++ chunk)

/-- Feed a sequence of chunks one at a time, concatenating the decoded
message sequences across the feeds; returns the final retained buffer. -/
def feedMany (st : List Nat) : List (List Nat) → List (List Nat) × List Nat
  | [] => ([], st)
  | c :: cs =>
    let p := feed st c
    let q := feedMany p.2 cs
    (p.1 ++ q.1, q.2)

theorem decOne_bounds {buf : List Nat} {m : List Nat} {k : Nat}
    (h : decOne buf = some (m, k)) : 1 ≤ k ∧ k ≤ buf.length := by
  match buf with
  | [] => simp [decOne] at h
  | n :: rest =>
    simp only [decOne] at h
    split at h
    · rename_i hn
      cases h
      exact ⟨Nat.succ_le_succ (Nat.zero_le n), by simpa using Nat.succ_le_succ hn⟩
    · cases h

theorem decOne_append {buf t : List Nat} {m : List Nat} {k : Nat}
    (h : decOne buf = some (m, k)) : decOne (buf ++ t) = some (m, k) := by
  match buf with
  | [] => simp [decOne] at h
  | n :: rest =>
    simp only [decOne] at h
    split at h
    · rename_i hn
      cases h
      simp only [List.cons_append, decOne, List.length_append]
      rw [if_pos (Nat.le_trans hn (Nat.le_add_right _ _))]
      rw [List.take_append_eq_append_take, Nat.sub_eq_zero_of_le hn]
      simp
    · cases h

theorem decodeLoop_nil (f : Nat) : decodeLoop f [] = ([], []) := by
  cases f <;> simp [decodeLoop, decOne]

/-- The fuel does not matter once it covers the buffer length. -/
theorem decodeLoop_fuel :
    ∀ (n : Nat) (buf : List Nat) (f g : Nat), buf.length ≤ n →
      buf.length ≤ f → buf.length ≤ g → decodeLoop f buf = decodeLoop g buf := by
  intro n
  induction n with
  | zero =>
    intro buf f g hn _ _
    have : buf = [] := List.length_eq_zero.mp (Nat.le_zero.mp hn)
    subst this
    rw [decodeLoop_nil, decodeLoop_nil]
  | succ n ih =>
    intro buf f g hn hf hg
    match f, g with
    | 0, g =>
      have : buf = [] := List.length_eq_zero.mp (Nat.le_zero.mp hf)
      subst this
      rw [decodeLoop_nil, decodeLoop_nil]
    | f + 1, 0 =>
      have : buf = [] := List.length_eq_zero.mp (Nat.le_zero.mp hg)
      subst this
      rw [decodeLoop_nil, decodeLoop_nil]
    | f + 1, g + 1 =>
      cases hdec : decOne buf with
      | none => simp [decodeLoop, hdec]
      | some p =>
        obtain ⟨m, k⟩ := p
        obtain ⟨hk1, hk2⟩ := decOne_bounds hdec
        have hlen : (buf.drop k).length ≤ n := by
          rw [List.length_drop]
          omega
        have hf' : (buf.drop k).length ≤ f := by
          rw [List.length_drop]; omega
        have hg' : (buf.drop k).length ≤ g := by
          rw [List.length_drop]; omega
        simp only [decodeLoop, hdec]
        rw [ih (buf.drop k) f g hlen hf' hg']

theorem decodeLoop_eq_decodeAll {f : Nat} {buf : List Nat} (h : buf.length ≤ f) :
    decodeLoop f buf = decodeAll buf :=
  decodeLoop_fuel buf.length buf f buf.length (Nat.le_refl _) h (Nat.le_refl _)

theorem decodeAll_stuck {buf : List Nat} (h : decOne buf = none) :
    decodeAll buf = ([], buf) := by
  unfold decodeAll
  match buf with
  | [] => exact decodeLoop_nil _
  | b :: bs => simp [decodeLoop, h]

theorem decodeAll_step {buf : List Nat} {m : List Nat} {k : Nat}
    (h : decOne buf = some (m, k)) :
    decodeAll buf = (m :: (decodeAll (buf.drop k)).1, (decodeAll (buf.drop k)).2) := by
  obtain ⟨hk1, hk2⟩ := decOne_bounds h
  match buf with
  | [] => simp [decOne] at h
  | b :: bs =>
    show decodeLoop (bs.length + 1) (b :: bs) = _
    simp only [decodeLoop, h]
    have : ((b :: bs).drop k).length ≤ bs.length := by
      rw [List.length_drop]
      simp only [List.length_cons]
      omega
    rw [decodeLoop_eq_decodeAll this]

/-- Appending more bytes never changes the already-decodable prefix: the
messages of `s ++ t` are the messages of `s` followed by the messages of
the leftover of `s` extended with `t`. -/
theorem decodeAll_append :
    ∀ (n : Nat) (s t : List Nat), s.length ≤ n →
      decodeAll (s ++ t) =
        ((decodeAll s).1 ++ (decodeAll ((decodeAll s).2 ++ t)).1,
          (decodeAll ((decodeAll s).2 ++ t)).2) := by
  intro n
  induction n with
  | zero =>
    intro s t hn
    have hs : s = [] := List.length_eq_zero.mp (Nat.le_zero.mp hn)
    subst hs
    have h0 : decOne ([] : List Nat) = none := rfl
    rw [decodeAll_stuck h0]
    simp
  | succ n ih =>
    intro s t hn
    cases hdec : decOne s with
    | none =>
      rw [decodeAll_stuck hdec]
      simp
    | some p =>
      obtain ⟨m, k⟩ := p
      obtain ⟨hk1, hk2⟩ := decOne_bounds hdec
      rw [decodeAll_step hdec, decodeAll_step (decOne_append hdec)]
      have hdrop : (s ++ t).drop k = s.drop k ++ t := by
        rw [List.drop_append_eq_append_drop, Nat.sub_eq_zero_of_le hk2, List.drop_zero]
      rw [hdrop]
      have hlen : (s.drop k).length ≤ n := by
        rw [List.length_drop]; omega
      rw [ih (s.drop k) t hlen]
      simp

/-! ### Socket.teardown -/

/-- Outcome of an underlying OS call made during teardown (the half-close
and the close), which may raise with a message. -/
abbrev OsCall := Except String Unit

/-- Socket.teardown(): unless the listen flag is set, try the half-close
and swallow (log) any exception; try the close and swallow any exception;
then fire sock:shut.  Returns the log of swallowed errors and the event
list after the call; an `Except.error` would be an exception escaping
teardown. -/
def teardown (listenFlag : Bool) (shutRes closeRes : OsCall) (evts : List EventTopic) :
    Except String (List String × List EventTopic) :=
  let log1 : List String :=
    if listenFlag then []
    else
      match shutRes with
      | .error e => [e]
      | .ok _ => []
  let log2 : List String :=
    match closeRes with
    | .error e => [e]
    | .ok _ => []
  .ok (log1 ++ log2, evts ++ [.sockShut])

/-- The event list after a teardown call. -/
def teardownEvents (listenFlag : Bool) (shutRes closeRes : OsCall)
    (evts : List EventTopic) : List EventTopic :=
  match teardown listenFlag shutRes closeRes evts with
  | .ok (_, e) => e
  | .error _ => evts

/-! ### The Plex watched set (C7) -/

/-- Reactor (Plex) bookkeeping: the selector registrations, the
_plex_socks set, the sockets holding an unpacker in their info dict, and
the sockets with the listen flag.  Sockets are identified by naturals. -/
structure PlexState where
  registered : List Nat
  socks : List Nat
  decoders : List Nat
  listening : List Nat
  deriving DecidableEq, Repr

/-- Plex._sock_on(sock): store a fresh unpacker in the socket info dict
(dict assignment: at most one entry per socket), register with the
selector, add to _plex_socks, wake the loop. -/
def sockOn (st : PlexState) (s : Nat) : PlexState :=
  { st with
    decoders := if s ∈ st.decoders then st.decoders else s :: st.decoders,
    registered := s :: st.registered,
    socks := if s ∈ st.socks then st.socks else s :: st.socks }

/-- Plex._sock_off(sock): unregister from the selector, remove from
_plex_socks, wake the loop. -/
def sockOff (st : PlexState) (s : Nat) : PlexState :=
  { st with
    registered := st.registered.erase s,
    socks := st.socks.erase s }

/-- The watched-set invariant: the set has no duplicates, every
non-listening member has exactly one decoder attached, and every member
is registered with the selector exactly once. -/
def PlexInv (st : PlexState) : Prop :=
  st.socks.Nodup ∧
  ∀ s ∈ st.socks,
    (s ∉ st.listening → st.decoders.count s = 1) ∧ st.registered.count s = 1

/-- Primitive actions, in order, performed when teardown() runs on a
socket linked into a Plex: teardown half-closes (unless listening) and
closes the OS socket, then fires sock:shut; the handler _on_sockshut runs
on that event and calls _sock_off, which unregisters from the selector,
removes from the watched set and wakes the loop. -/
inductive PlexAction
  | shutdownWR
  | closeSock
  | fireShut
  | unregister
  | removeSet
  | wake
  deriving DecidableEq, Repr

/-- The actions of Plex._sock_off, in source order. -/
def sockOffActions : List PlexAction := [.unregister, .removeSet, .wake]

/-- The action sequence of teardown() on a Plex-linked socket. -/
def teardownPlexActions (listenFlag : Bool) : List PlexAction :=
  (if listenFlag then [] else [.shutdownWR]) ++ [.closeSock] ++ [.fireShut] ++ sockOffActions

/-! ### The Server reactor loop (C2) -/

/-- Events the Server loop publishes (sock:conn on accept, sock:msg per
decoded message, sock:shut on a connection close, serv:shut on server
shutdown), tagged with the connection id. -/
inductive SEvent
  | connEstablished (cid : Nat)
  | msgEvt (cid : Nat) (m : List Nat)
  | shutEvt (cid : Nat)
  | servShut
  deriving DecidableEq, Repr

/-- What a recv call on a ready connection yields: delivered bytes (empty
means the peer closed) or an OS error, which makes recv raise
SocketClosed. -/
inductive ReadRes
  | data (buf : List Nat)
  | oserr
  deriving DecidableEq, Repr

/-- One ready key returned by the selector: the listening socket (with
the accept outcome), a connection, or the wake socket. -/
inductive ReadyItem
  | acceptReady (res : Except Unit Nat)
  | connReady (cid : Nat) (res : ReadRes)
  | wakeReady

/-- The registered connections with their per-connection decoder buffers. -/
abbrev Conns := List (Nat × List Nat)

def lookupConn : Conns → Nat → Option (List Nat)
  | [], _ => none
  | (c, d) :: rest, cid => if c = cid then some d else lookupConn rest cid

def setConn : Conns → Nat → List Nat → Conns
  | [], _, _ => []
  | (c, d) :: rest, cid, dst => if c = cid then (c, dst) :: rest else (c, d) :: setConn rest cid dst

def removeConn : Conns → Nat → Conns
  | [], _ => []
  | (c, d) :: rest, cid => if c = cid then rest else (c, d) :: removeConn rest cid

/-- How a pass over the ready keys ends: the loop goes back to select,
the loop thread dies on an uncaught exception, or (flag observed) the
loop returns after firing serv:shut. -/
inductive LoopExit
  | alive (cs : Conns)
  | crashed (cs : Conns)
  | stopped
  deriving DecidableEq, Repr

/-- The body of Server._runServerLoop for one list of ready keys: accept
registers a fresh connection with a fresh unpacker and fires sock:conn; a
connection read feeds its unpacker and fires sock:msg per message; an
empty read unregisters, fires sock:shut and closes; recv raising
SocketClosed, or accept raising, is NOT caught anywhere in the loop, so
the remaining ready keys are not served and the thread dies. -/
def processReady : List ReadyItem → Conns → List SEvent → List SEvent × LoopExit
  | [], cs, acc => (acc, .alive cs)
  | .wakeReady :: rest, cs, acc => processReady rest cs acc
  | .acceptReady (.error _) :: _, cs, acc => (acc, .crashed cs)
  | .acceptReady (.ok cid) :: rest, cs, acc =>
    processReady rest ((cid, []) :: cs) (acc ++ [.connEstablished cid])
  | .connReady cid r :: rest, cs, acc =>
    match lookupConn cs cid with
    | none => processReady rest cs acc
    | some dst =>
      match r with
      | .oserr => (acc, .crashed cs)
      | .data [] => processReady rest (removeConn cs cid) (acc ++ [.shutEvt cid])
      | .data buf =>
        let p := decodeAll (dst ++ buf)
        processReady rest (setConn cs cid p.2) (acc ++ p.1.map (fun m => .msgEvt cid m))

/-- One select round of Server._runServerLoop: when the shutdown flag is
set the loop breaks out, fires serv:shut and returns; otherwise the ready
keys are processed in order. -/
def serverRound (srvshut : Bool) (ready : List ReadyItem) (cs : Conns) :
    List SEvent × LoopExit :=
  if srvshut then ([.servShut], .stopped)
  else processReady ready cs []

/-! ### Per-connection event trace of the Plex loop (C8) -/

/-- Events for one connection, as the Plex loop publishes them. -/
inductive ConnEvent
  | msg (m : List Nat)
  | shut
  deriving DecidableEq, Repr

/-- The events the Plex main loop publishes for one connection, given the
successive recv results for it: a read feeds the unpacker and fires one
sock:msg per decoded message, in decode order; an empty read runs
teardown, which fires sock:shut, and _sock_off unregisters the socket so
no further reads occur; an OS error kills the loop thread, so no further
events occur either. -/
def connTrace : List ReadRes → List Nat → List ConnEvent
  | [], _ => []
  | .data [] :: _, _ => [.shut]
  | .data buf :: rest, dst =>
    let p := decodeAll (dst ++ buf)
    p.1.map .msg ++ connTrace rest p.2
  | .oserr :: _, _ => []

/-! ### Binding addresses (C9) -/

/-- A host/port bind address. -/
structure Addr where
  host : String
  port : Nat
  deriving DecidableEq, Repr

/-- OS bind + getsockname: binding port 0 yields the OS-chosen ephemeral
port; any other port binds as requested. -/
def osBind (req : Addr) (eph : Nat) : Addr :=
  if req.port = 0 then { host := req.host, port := eph } else req

/-- The Server fields that synRunServer touches. -/
structure ServerState where
  sockaddr : Addr
  listening : Bool
  thrStarted : Bool
  deriving DecidableEq, Repr

/-- Server.synRunServer: bind the configured address, store getsockname()
back into self.sockaddr, listen, start the loop thread, return
self.sockaddr. -/
def synRunServer (st : ServerState) (eph : Nat) : ServerState × Addr :=
  let b := osBind st.sockaddr eph
  ({ sockaddr := b, listening := true, thrStarted := true }, b)

/-- Plex.listen(host, port): bind and listen, set the listen flag in the
socket info, link and _sock_on the socket into the Plex, return
getsockname(). -/
def plexListen (pst : PlexState) (host : String) (port eph : Nat) (sid : Nat) :
    PlexState × Addr :=
  let b := osBind { host := host, port := port } eph
  (sockOn { pst with listening := sid :: pst.listening } sid, b)

/-! ### Lemmas about recvall -/

theorem recvall_ok :
    ∀ (sched pending buf : List Nat) (size : Nat) (out : List Nat),
      buf.length ≤ size →
      recvall sched pending buf size = some (.ok out) →
      out.length = size ∧ out = buf ++ pending.take (size - buf.length) := by
  intro sched
  induction sched with
  | nil =>
    intro pending buf size out hle h
    simp only [recvall] at h
    split at h
    · rename_i hsz
      simp only [Option.some.injEq, Except.ok.injEq] at h
      subst h
      have hq : buf.length = size := Nat.le_antisymm hle hsz
      refine ⟨hq, ?_⟩
      rw [hq, Nat.sub_self]
      simp
    · exact absurd h (by simp)
  | cons s rest ih =>
    intro pending buf size out hle h
    simp only [recvall] at h
    split at h
    · rename_i hsz
      simp only [Option.some.injEq, Except.ok.injEq] at h
      subst h
      have hq : buf.length = size := Nat.le_antisymm hle hsz
      refine ⟨hq, ?_⟩
      rw [hq, Nat.sub_self]
      simp
    · rename_i hsz
      split at h
      · exact absurd h (by simp)
      · rename_i hx
        have hblt : buf.length < size := Nat.lt_of_not_le hsz
        set m := min (size - buf.length) (s + 1) with hm
        set k := (pending.take m).length with hk
        have hklen : k = min m pending.length := List.length_take _ _
        have hkle : k ≤ size - buf.length := by
          rw [hklen]; omega
        have hle' : (buf ++ pending.take m).length ≤ size := by
          rw [List.length_append, ← hk]; omega
        obtain ⟨h1, h2⟩ := ih _ _ _ _ hle' h
        refine ⟨h1, ?_⟩
        rw [h2, List.append_assoc]
        congr 1
        have htk : pending.take m = pending.take k := by
          rw [hklen]
          rcases Nat.le_total m pending.length with hc | hc
          · rw [Nat.min_eq_left hc]
          · rw [Nat.min_eq_right hc, List.take_length, List.take_of_length_le hc]
        have hlen2 : (buf ++ pending.take m).length = buf.length + k := by
          rw [List.length_append, hk]
        rw [hlen2, htk, ← List.take_add]
        congr 1
        omega

theorem recvall_short (sched pending : List Nat) (size : Nat)
    (h : pending.length < size) :
    recvall sched pending [] size = none ∨
      recvall sched pending [] size = some (.error .socketClosed) := by
  cases hr : recvall sched pending [] size with
  | none => exact Or.inl rfl
  | some r =>
    cases r with
    | error e => cases e; exact Or.inr rfl
    | ok out =>
      obtain ⟨hlen, hout⟩ := recvall_ok sched pending [] size out (by simp) hr
      exfalso
      rw [hout] at hlen
      simp only [List.nil_append, List.length_take, Nat.sub_zero] at hlen
      omega

/-- C3: Socket.recvall(n) accumulates recv results and, whenever it
returns, returns exactly n bytes (the first n bytes the peer sent); if the
peer closes before n bytes are accumulated, it raises SocketClosed rather
than returning a short buffer. -/
theorem C3_recvall_exact (sched pending : List Nat) (size : Nat) :
    (∀ out, recvall sched pending [] size = some (.ok out) →
      out.length = size ∧ out = pending.take size) ∧
    (pending.length < size →
      recvall sched pending [] size = none ∨
        recvall sched pending [] size = some (.error .socketClosed)) := by
  constructor
  · intro out h
    obtain ⟨h1, h2⟩ := recvall_ok sched pending [] size out (by simp) h
    simp only [List.nil_append, Nat.sub_zero] at h2
    exact ⟨h1, h2⟩
  · exact recvall_short sched pending size

/-- Witness for C3 at concrete inputs: a complete transfer of 3 bytes
across two recv calls, and a peer close after 2 of 3 bytes. -/
theorem C3_recvall_exact_witness :
    (recvall [0, 2] [5, 6, 7] [] 3 = some (.ok [5, 6, 7]) ∧
      ([5, 6, 7] : List Nat).length = 3 ∧
      ([5, 6, 7] : List Nat) = ([5, 6, 7] : List Nat).take 3) ∧
    (([5, 6] : List Nat).length < 3 ∧
      (recvall [9, 9] [5, 6] [] 3 = none ∨
        recvall [9, 9] [5, 6] [] 3 = some (.error .socketClosed))) :=
  ⟨⟨by decide, (C3_recvall_exact [0, 2] [5, 6, 7] 3).1 [5, 6, 7] (by decide)⟩,
    ⟨by decide, (C3_recvall_exact [9, 9] [5, 6] 3).2 (by decide)⟩⟩

/-- C4 (code bug): Socket.sendall passes the WHOLE buffer to every send
call instead of the unsent remainder.  With buffer [1, 2] and an OS that
accepts one byte per send, the loop terminates normally having placed
[1, 1] on the wire: byte 2 of the buffer is never transferred. -/
theorem C4_sendall_bug_eval :
    sendall [.ok 0, .ok 0] [1, 2] 0 [] = some (.ok [1, 1]) ∧
      (2 : Nat) ∉ ([1, 1] : List Nat) := by
  decide

/-- C5: Socket.emit reports send success or failure as a boolean and never
propagates the failure: it returns true exactly when sendall completed,
false exactly when sendall raised SocketClosed; and when the OS accepts
the whole serialized buffer in one send, the buffer is fully transferred
and emit returns true. -/
theorem C5_emit_reports_failure (sched : List SendStep) (enc : List Nat) :
    (emit sched enc = some true ↔ ∃ w, sendall sched enc 0 [] = some (.ok w)) ∧
    (emit sched enc = some false ↔
      sendall sched enc 0 [] = some (.error .socketClosed)) ∧
    sendall [.ok enc.length] enc 0 [] = some (.ok enc) ∧
    emit [.ok enc.length] enc = some true := by
  have hfull : sendall [.ok enc.length] enc 0 [] = some (.ok enc) := by
    cases enc with
    | nil => simp [sendall]
    | cons a as =>
      have hmin : min ((a :: as).length + 1) ((a :: as).length) = (a :: as).length := by
        omega
      simp [sendall, hmin, List.take_length]
  refine ⟨?_, ?_, hfull, ?_⟩
  · cases hs : sendall sched enc 0 [] with
    | none => simp [emit, hs]
    | some r =>
      cases r with
      | ok w => simp [emit, hs]
      | error e => cases e; simp [emit, hs]
  · cases hs : sendall sched enc 0 [] with
    | none => simp [emit, hs]
    | some r =>
      cases r with
      | ok w => simp [emit, hs]
      | error e => cases e; simp [emit, hs]
  · simp [emit, hfull]

/-- C9: synRunServer and Plex.listen return the actually bound address: a
zero-port request resolves to the OS-assigned ephemeral port, which is the
port of the returned address, and the Server keeps the bound address in
self.sockaddr after bind. -/
theorem C9_bind_returns_bound_addr (st : ServerState) (eph : Nat)
    (pst : PlexState) (host : String) (port sid : Nat) :
    (synRunServer st eph).2 = osBind st.sockaddr eph ∧
    (synRunServer st eph).2.port =
      (if st.sockaddr.port = 0 then eph else st.sockaddr.port) ∧
    (synRunServer st eph).1.sockaddr = (synRunServer st eph).2 ∧
    (plexListen pst host port eph sid).2 = osBind { host := host, port := port } eph ∧
    (plexListen pst host port eph sid).2.port = (if port = 0 then eph else port) := by
  refine ⟨rfl, ?_, rfl, rfl, ?_⟩
  · simp only [synRunServer, osBind]
    split <;> rfl
  · simp only [plexListen, osBind]
    split <;> rfl

/-- C10: Socket.info with no value returns the stored value (None when
the key is unset) and leaves the store untouched; info(key, v) with v not
None stores v, returns it, and a later info(key) reads it back; and the
store never holds None as a value. -/
theorem C10_info_get_set (st : Store) (p : String) (valu : PyVal) :
    (info st p .none).1 = st ∧
    (info st p .none).2 = dictGet st p ∧
    (∀ v, v ≠ .none →
      (info st p v).2 = v ∧ (info ((info st p v).1) p .none).2 = v) ∧
    (NoneNeverStored st → NoneNeverStored (info st p valu).1) := by
  refine ⟨?_, ?_, ?_, ?_⟩
  · simp [info]
  · simp [info]
  · intro v hv
    constructor
    · simp [info, hv, dictGet]
    · simp [info, hv, dictGet]
  · intro hns k
    simp only [info]
    split
    · rename_i hvne
      intro hcontra
      by_cases hk : k = p
      · simp only [hk, if_pos rfl] at hcontra
        exact hvne (by injection hcontra)
      · simp only [if_neg hk] at hcontra
        exact hns k hcontra
    · exact hns k

/-- Witness for C10 at concrete inputs: storing 5 under a key on the empty
store and reading it back. -/
theorem C10_info_get_set_witness :
    (PyVal.int 5 ≠ PyVal.none) ∧
    ((info (fun _ => none) "woot" (.int 5)).2 = .int 5 ∧
      (info ((info (fun _ => none) "woot" (.int 5)).1) "woot" .none).2 = .int 5) ∧
    NoneNeverStored (info (fun _ => none) "woot" (.int 5)).1 :=
  ⟨by decide,
    (C10_info_get_set (fun _ => none) "woot" (.int 5)).2.2.1 (.int 5) (by decide),
    (C10_info_get_set (fun _ => none) "woot" (.int 5)).2.2.2
      (fun _ h => Option.noConfusion h)⟩

/-- C1 counterexample: calling teardown twice on the same handle publishes
TWO shutdown events, not one — the publish is not guarded by any flag. -/
theorem C1_teardown_twice_counterexample :
    (teardownEvents false (.ok ()) (.ok ())
        (teardownEvents false (.ok ()) (.ok ()) [])).count .sockShut = 2 ∧
      ¬ (teardownEvents false (.ok ()) (.ok ())
          (teardownEvents false (.ok ()) (.ok ()) [])).count .sockShut = 1 := by
  decide

/-- C1 amended: teardown never raises — OS failures during the half-close
and the close are swallowed — and EVERY call publishes exactly one
shutdown event, so repeated calls publish repeated shutdown events rather
than one. -/
theorem C1_teardown_always_fires (lf : Bool) (sr cr : OsCall) (evts : List EventTopic) :
    (∃ log, teardown lf sr cr evts = .ok (log, evts ++ [.sockShut])) ∧
    (teardownEvents lf sr cr evts).count .sockShut = evts.count .sockShut + 1 := by
  constructor
  · exact ⟨_, rfl⟩
  · simp [teardownEvents, teardown]

/-! ### C6: split invariance of the decoder -/

/-- C6: feeding a byte sequence to the decoder in any number of
consecutive chunks yields, concatenated in order, exactly the message
sequence of a single feed of the whole concatenation, and leaves the same
undecoded bytes buffered. -/
theorem C6_feed_split_invariance (c : List Nat) (cs : List (List Nat)) (st : List Nat) :
    feedMany st (c :: cs) = feed st ((c :: cs).flatten) := by
  induction cs generalizing c st with
  | nil =>
    simp [feedMany, feed]
  | cons c2 cs ih =>
    have hstep : feedMany st (c :: c2 :: cs) =
        ((feed st c).1 ++ (feedMany (feed st c).2 (c2 :: cs)).1,
          (feedMany (feed st c).2 (c2 :: cs)).2) := rfl
    rw [hstep, ih c2 (feed st c).2]
    have key := decodeAll_append (st ++ c).length (st ++ c) ((c2 :: cs).flatten) (Nat.le_refl _)
    simp only [List.flatten_cons, ← List.append_assoc] at key
    simp only [feed, List.flatten_cons, ← List.append_assoc]
    rw [key]

/-! ### C8: per-connection event ordering -/

theorem connTrace_shut_le_one :
    ∀ (reads : List ReadRes) (dst : List Nat),
      (connTrace reads dst).count ConnEvent.shut ≤ 1 := by
  intro reads
  induction reads with
  | nil => intro dst; simp [connTrace]
  | cons r rest ih =>
    intro dst
    match r with
    | .oserr => simp [connTrace]
    | .data [] => simp [connTrace]
    | .data (a :: as) =>
      simp only [connTrace, List.count_append]
      have hz : ((decodeAll (dst ++ a :: as)).1.map ConnEvent.msg).count ConnEvent.shut = 0 := by
        rw [List.count_eq_zero]
        intro hmem
        rw [List.mem_map] at hmem
        obtain ⟨x, _, hx⟩ := hmem
        cases hx
      rw [hz]
      simpa using ih (decodeAll (dst ++ a :: as)).2

theorem connTrace_order :
    ∀ (chunks : List (List Nat)) (dst : List Nat), (∀ c ∈ chunks, c ≠ []) →
      connTrace (chunks.map ReadRes.data ++ [ReadRes.data []]) dst =
        ((feedMany dst chunks).1).map ConnEvent.msg ++ [ConnEvent.shut] := by
  intro chunks
  induction chunks with
  | nil => intro dst _; simp [connTrace, feedMany]
  | cons c cs ih =>
    intro dst h
    cases c with
    | nil => exact absurd rfl (h [] (by simp))
    | cons a as =>
      simp only [List.map_cons, List.cons_append, connTrace, List.append_eq]
      rw [ih _ (fun x hx => h x (by simp [hx]))]
      simp [feedMany, feed, List.map_append]

/-- C8: for a single connection handled by the Plex loop, sock:msg events
are published in decode (arrival) order — the events for chunked reads
followed by a close are exactly the messages of the successive feeds, in
order, followed by one sock:shut — and sock:shut is published at most
once, on any read sequence, and only after all message events. -/
theorem C8_connection_event_order (reads : List ReadRes) (dst : List Nat)
    (chunks : List (List Nat)) (dst2 : List Nat) (h : ∀ c ∈ chunks, c ≠ []) :
    (connTrace reads dst).count ConnEvent.shut ≤ 1 ∧
    connTrace (chunks.map ReadRes.data ++ [ReadRes.data []]) dst2 =
      ((feedMany dst2 chunks).1).map ConnEvent.msg ++ [ConnEvent.shut] :=
  ⟨connTrace_shut_le_one reads dst, connTrace_order chunks dst2 h⟩

/-- Witness for C8 at concrete inputs: two nonempty chunks then a close. -/
theorem C8_connection_event_order_witness :
    (∀ c ∈ [[1, 7], [0]], c ≠ ([] : List Nat)) ∧
    ((connTrace [ReadRes.data [1, 7], ReadRes.oserr] []).count ConnEvent.shut ≤ 1 ∧
      connTrace ([[1, 7], [0]].map ReadRes.data ++ [ReadRes.data []]) [] =
        ((feedMany [] [[1, 7], [0]]).1).map ConnEvent.msg ++ [ConnEvent.shut]) :=
  ⟨by decide,
    C8_connection_event_order [ReadRes.data [1, 7], ReadRes.oserr] [] [[1, 7], [0]] []
      (by decide)⟩

/-! ### C2: reactor loop error isolation -/

theorem processReady_no_servShut :
    ∀ (ready : List ReadyItem) (cs : Conns) (acc : List SEvent),
      SEvent.servShut ∈ (processReady ready cs acc).1 → SEvent.servShut ∈ acc := by
  intro ready
  induction ready with
  | nil => intro cs acc h; simpa [processReady] using h
  | cons item rest ih =>
    intro cs acc h
    match item with
    | .wakeReady => exact ih cs acc (by simpa [processReady] using h)
    | .acceptReady (.error e) => simpa [processReady] using h
    | .acceptReady (.ok cid) =>
      have h2 := ih _ _ (by simpa [processReady] using h)
      rw [List.mem_append] at h2
      rcases h2 with h2 | h2
      · exact h2
      · simp at h2
    | .connReady cid r =>
      cases hl : lookupConn cs cid with
      | none =>
        exact ih _ _ (by simpa [processReady, hl] using h)
      | some dst =>
        match r with
        | .oserr => simpa [processReady, hl] using h
        | .data [] =>
          have h2 := ih _ _ (by simpa [processReady, hl] using h)
          rw [List.mem_append] at h2
          rcases h2 with h2 | h2
          · exact h2
          · simp at h2
        | .data (a :: as) =>
          have h2 := ih _ _ (by simpa [processReady, hl] using h)
          rw [List.mem_append] at h2
          rcases h2 with h2 | h2
          · exact h2
          · rw [List.mem_map] at h2
            obtain ⟨x, -, hx⟩ := h2
            cases hx

theorem serverRound_servShut (flag : Bool) (ready : List ReadyItem) (cs : Conns) :
    SEvent.servShut ∈ (serverRound flag ready cs).1 ↔ flag = true := by
  cases flag with
  | true => simp [serverRound]
  | false =>
    simp only [serverRound, Bool.false_eq_true, if_false, iff_false]
    intro h
    have := processReady_no_servShut ready cs [] h
    simp at this

/-- C2 counterexample: with two watched connections both ready, recv on
the first raising SocketClosed kills the loop thread at once: the second
ready connection is never served (its decodable bytes produce no sock:msg
event), the erroring connection is NOT torn down (no sock:shut for it),
and no serv:shut is published before the thread exits. -/
theorem C2_loop_error_counterexample :
    processReady [ReadyItem.connReady 0 ReadRes.oserr,
        ReadyItem.connReady 1 (ReadRes.data [1, 9])] [(0, []), (1, [])] [] =
      ([], LoopExit.crashed [(0, []), (1, [])]) ∧
    SEvent.msgEvt 1 [9] ∉ (serverRound false [ReadyItem.connReady 0 ReadRes.oserr,
        ReadyItem.connReady 1 (ReadRes.data [1, 9])] [(0, []), (1, [])]).1 ∧
    SEvent.shutEvt 0 ∉ (serverRound false [ReadyItem.connReady 0 ReadRes.oserr,
        ReadyItem.connReady 1 (ReadRes.data [1, 9])] [(0, []), (1, [])]).1 ∧
    SEvent.servShut ∉ (serverRound false [ReadyItem.connReady 0 ReadRes.oserr,
        ReadyItem.connReady 1 (ReadRes.data [1, 9])] [(0, []), (1, [])]).1 := by
  decide

/-- C2 amended: only an orderly close (empty read) is isolated to that
connection — it is unregistered, gets its sock:shut, and the loop serves
the remaining ready keys; recv raising SocketClosed on a connection, or
accept raising, terminates the loop thread at once (the remaining ready
keys are dropped and the dead connection gets no teardown), and serv:shut
is published exactly when the loop observes the shutdown flag — never on
an error exit. -/
theorem C2_loop_error_behaviour (cid : Nat) (rest : List ReadyItem) (cs : Conns)
    (acc : List SEvent) (dst : List Nat) (flag : Bool)
    (ready : List ReadyItem) (cs2 : Conns) (h : lookupConn cs cid = some dst) :
    processReady (ReadyItem.connReady cid ReadRes.oserr :: rest) cs acc =
      (acc, LoopExit.crashed cs) ∧
    processReady (ReadyItem.connReady cid (ReadRes.data []) :: rest) cs acc =
      processReady rest (removeConn cs cid) (acc ++ [SEvent.shutEvt cid]) ∧
    processReady (ReadyItem.acceptReady (Except.error ()) :: rest) cs acc =
      (acc, LoopExit.crashed cs) ∧
    (SEvent.servShut ∈ (serverRound flag ready cs2).1 ↔ flag = true) := by
  refine ⟨?_, ?_, rfl, serverRound_servShut flag ready cs2⟩
  · simp [processReady, h]
  · simp [processReady, h]

/-- Witness for C2 at concrete inputs: one watched connection. -/
theorem C2_loop_error_behaviour_witness :
    lookupConn [(0, [])] 0 = some [] ∧
    (processReady [ReadyItem.connReady 0 ReadRes.oserr] [(0, [])] [] =
      ([], LoopExit.crashed [(0, [])]) ∧
    processReady [ReadyItem.connReady 0 (ReadRes.data [])] [(0, [])] [] =
      processReady [] (removeConn [(0, [])] 0) ([] ++ [SEvent.shutEvt 0]) ∧
    processReady [ReadyItem.acceptReady (Except.error ())] [(0, [])] [] =
      ([], LoopExit.crashed [(0, [])]) ∧
    (SEvent.servShut ∈ (serverRound false [] []).1 ↔ false = true)) :=
  ⟨by decide, C2_loop_error_behaviour 0 [] [(0, [])] [] [] false [] [] (by decide)⟩

/-! ### C7: the Plex watched-set invariant -/

theorem sockOn_inv (st : PlexState) (s : Nat) (hinv : PlexInv st)
    (hr : s ∉ st.registered) (hd : s ∉ st.decoders) (hs : s ∉ st.socks) :
    PlexInv (sockOn st s) := by
  obtain ⟨hnd, hmem⟩ := hinv
  simp only [sockOn, PlexInv, if_neg hd, if_neg hs]
  refine ⟨List.nodup_cons.mpr ⟨hs, hnd⟩, ?_⟩
  intro x hx
  rcases List.mem_cons.mp hx with hx | hx
  · subst hx
    constructor
    · intro _
      rw [List.count_cons_self, List.count_eq_zero_of_not_mem hd]
    · rw [List.count_cons_self, List.count_eq_zero_of_not_mem hr]
  · have hne : x ≠ s := fun hcontra => hs (hcontra ▸ hx)
    obtain ⟨h1, h2⟩ := hmem x hx
    constructor
    · intro hnl
      rw [List.count_cons_of_ne hne, h1 hnl]
    · rw [List.count_cons_of_ne hne, h2]

theorem sockOff_inv (st : PlexState) (s : Nat) (hinv : PlexInv st) :
    PlexInv (sockOff st s) := by
  obtain ⟨hnd, hmem⟩ := hinv
  refine ⟨hnd.erase s, ?_⟩
  intro x hx
  have hx2 := (hnd.mem_erase_iff).mp (show x ∈ st.socks.erase s from hx)
  obtain ⟨hne, hxs⟩ := hx2
  obtain ⟨h1, h2⟩ := hmem x hxs
  refine ⟨h1, ?_⟩
  show (st.registered.erase s).count x = 1
  rw [List.count_erase_of_ne hne, h2]

/-- C7 counterexample: on the teardown path the socket is NOT unregistered
before it is closed — teardown closes the OS socket and only then fires
sock:shut, whose handler does the unregistration. -/
theorem C7_unregister_order_counterexample :
    ¬ ((teardownPlexActions false).indexOf PlexAction.unregister <
        (teardownPlexActions false).indexOf PlexAction.closeSock) := by
  decide

/-- C7 amended: after every add (fresh socket) and every remove, each
non-listening watched socket has exactly one decoder and each watched
socket is registered with the selector exactly once; but a socket removed
via teardown is closed BEFORE it is unregistered, since the unregistration
runs in the sock:shut handler which teardown fires after the close. -/
theorem C7_watched_set_invariant (st : PlexState) (s : Nat) (hinv : PlexInv st)
    (hr : s ∉ st.registered) (hd : s ∉ st.decoders) (hs : s ∉ st.socks)
    (st2 : PlexState) (s2 : Nat) (hinv2 : PlexInv st2) :
    PlexInv (sockOn st s) ∧ PlexInv (sockOff st2 s2) ∧
    (teardownPlexActions false).indexOf PlexAction.closeSock <
      (teardownPlexActions false).indexOf PlexAction.unregister :=
  ⟨sockOn_inv st s hinv hr hd hs, sockOff_inv st2 s2 hinv2, by decide⟩

/-- Witness for C7 at concrete states: adding socket 0 to the empty Plex
and removing socket 1 from a Plex watching only socket 1. -/
theorem C7_watched_set_invariant_witness :
    (PlexInv ⟨[], [], [], []⟩ ∧ (0 : Nat) ∉ ([] : List Nat) ∧
      PlexInv ⟨[1], [1], [1], []⟩) ∧
    (PlexInv (sockOn ⟨[], [], [], []⟩ 0) ∧ PlexInv (sockOff ⟨[1], [1], [1], []⟩ 1) ∧
      (teardownPlexActions false).indexOf PlexAction.closeSock <
        (teardownPlexActions false).indexOf PlexAction.unregister) :=
  ⟨⟨⟨by decide, by decide⟩, by decide, ⟨by decide, by decide⟩⟩,
    C7_watched_set_invariant ⟨[], [], [], []⟩ 0 ⟨by decide, by decide⟩
      (by decide) (by decide) (by decide)
      ⟨[1], [1], [1], []⟩ 1 ⟨by decide, by decide⟩⟩

end Synapse
